import Mathlib

/-!
# Multi-agent collaboration orchestrator: shallow embedding

Shallow embedding of the `MultiAgentOrchestrator` class of
`enhanced-qa-agent.js` (the multi-agent collaboration core of the
repository), together with theorems settling the specification claims
about it.

Modelling conventions:
* JS strings are Lean `String`s; `s.substring(0, n)` becomes `String.take n`
  (both clamp when the string is shorter), `s.length` becomes
  `String.length` (character count; the sources only compare lengths of
  plain model output text, where this coincides with the JS code-unit
  count for practical purposes), `'x'.repeat(n)` becomes `repeatChar`.
* The network is nondeterministic, so every strategy executor is
  parameterised by an oracle `Nat → CallResult` giving the outcome of the
  i-th attempted `callSingleAgent` invocation (0-based, in call order).
  `callSingleAgent` itself never throws (settled separately), so a
  `CallResult` stream is a faithful interface for the executors.
* Each executor additionally returns the trace of attempted calls, i.e.
  the list of `(agent, fullInput)` pairs handed to `callSingleAgent`, in
  order; the debate executor also returns the per-call console log lines
  (`✅ Response received …` / `❌ Failed: …`).  Console output that does
  not depend on call outcomes (banners, round headers) is not modelled.
* A thrown JS exception that escapes a function is modelled with
  `Except.error`; a function that cannot throw returns a plain value.
-/

/-- One configured agent: `{provider, model}` as selected by the CLI. -/
structure Agent where
  provider : String
  model : String
deriving DecidableEq, Repr

/-- `${agent.provider}-${agent.model}`, the agent identity used in records. -/
def agentName (a : Agent) : String := a.provider ++ "-" ++ a.model

/-- Outcome of one `callSingleAgent` invocation:
`{success:true, result}` or `{success:false, error}`. -/
inductive CallResult where
  | success (result : String)
  | failure (error : String)
deriving DecidableEq, Repr

def CallResult.isSuccess : CallResult → Bool
  | .success _ => true
  | .failure _ => false

/-- `'c'.repeat(n)` as in `'='.repeat(60)`. -/
def repeatChar (c : Char) (n : Nat) : String := String.mk (List.replicate n c)

/-- Substring scan over char lists: does `needle` occur inside `haystack`? -/
def infixScan (needle : List Char) : List Char → Bool
  | [] => needle.isPrefixOf []
  | c :: rest => needle.isPrefixOf (c :: rest) || infixScan needle rest

/-- JS `haystack.includes(needle)` (case-sensitive substring test). -/
def containsStr (haystack needle : String) : Bool :=
  infixScan needle.toList haystack.toList

/-- `estimateConfidence(response)`: sequential heuristic of the source,
base 50, seven keyword/length adjustments, clamped by
`Math.max(25, Math.min(95, confidence))`. -/
def estimateConfidence (response : String) : Int :=
  let confidence : Int := 50
  let confidence :=
    if containsStr response "definitely" || containsStr response "clearly" then
      confidence + 15 else confidence
  let confidence :=
    if containsStr response "evidence" || containsStr response "data" then
      confidence + 10 else confidence
  let confidence :=
    if containsStr response "research" || containsStr response "studies" then
      confidence + 10 else confidence
  let confidence :=
    if response.length > 800 then confidence + 10 else confidence
  let confidence :=
    if containsStr response "might" || containsStr response "possibly" then
      confidence - 10 else confidence
  let confidence :=
    if containsStr response "uncertain" || containsStr response "not sure" then
      confidence - 15 else confidence
  let confidence :=
    if containsStr response "I think" || containsStr response "probably" then
      confidence - 5 else confidence
  max 25 (min 95 confidence)

/-! ## Debate strategy executor (`runDebateMode`) -/

/-- One debate record: `{round, agent, response}`. -/
structure DebateRecord where
  round : Nat
  agent : String
  response : String
deriving DecidableEq, Repr

/-- The `context` string for a debate call, from the records collected so
far: empty while `responses.length === 0`, otherwise the
"Previous perspectives" digest of `responses.slice(-2)`, each record shown
as identity plus `response.substring(0, 200)` and an ellipsis. -/
def debateContext (responses : List DebateRecord) : String :=
  if responses.length > 0 then
    let recentResponses := responses.drop (responses.length - 2)
    "\n\nPrevious perspectives:\n" ++
      String.intercalate "\n"
        (recentResponses.map (fun r => r.agent ++ ": " ++ r.response.take 200 ++ "...")) ++
      "\n\nNow provide your perspective, considering the above:"
  else ""

/-- Mutable loop state of `runDebateMode`: the accumulated records, the
trace of attempted calls `(agent, fullInput)`, the per-call outcome log
lines, and the number of calls attempted so far (index into the oracle). -/
structure DebateState where
  responses : List DebateRecord
  trace : List (Agent × String)
  logs : List String
  calls : Nat
deriving DecidableEq, Repr

/-- The console line produced for the k-th attempted debate call. -/
def debateLogLine (oracle : Nat → CallResult) (k : Nat) : String :=
  match oracle k with
  | .success r => "✅ Response received (" ++ toString r.length ++ " chars)"
  | .failure e => "❌ Failed: " ++ e

/-- Inner `for (const agent of agents)` loop of one debate round. -/
def runDebateAgents (input : String) (rnd : Nat) (oracle : Nat → CallResult) :
    List Agent → DebateState → DebateState
  | [], st => st
  | agent :: rest, st =>
      let fullInput := input ++ debateContext st.responses
      let st' : DebateState :=
        match oracle st.calls with
        | .success r =>
            { responses := st.responses ++ [⟨rnd, agentName agent, r⟩]
              trace := st.trace ++ [(agent, fullInput)]
              logs := st.logs ++ ["✅ Response received (" ++ toString r.length ++ " chars)"]
              calls := st.calls + 1 }
        | .failure e =>
            { responses := st.responses
              trace := st.trace ++ [(agent, fullInput)]
              logs := st.logs ++ ["❌ Failed: " ++ e]
              calls := st.calls + 1 }
      runDebateAgents input rnd oracle rest st'

/-- Outer `for (let round = 1; round <= rounds; round++)` loop:
`remaining` rounds still to run, `rnd` the 1-based number of the next. -/
def runDebateRounds (input : String) (agents : List Agent) (oracle : Nat → CallResult) :
    Nat → Nat → DebateState → DebateState
  | 0, _, st => st
  | remaining + 1, rnd, st =>
      runDebateRounds input agents oracle remaining (rnd + 1)
        (runDebateAgents input rnd oracle agents st)

/-- `runDebateMode(input, agents, rounds = 2)` up to (and excluding) the
final synthesis call: the loop state after all rounds. -/
def runDebateMode (input : String) (agents : List Agent) (rounds : Nat)
    (oracle : Nat → CallResult) : DebateState :=
  runDebateRounds input agents oracle rounds 1 ⟨[], [], [], 0⟩

/-- Per-agent grouping of `synthesizeDebateResults` (`responses.reduce`):
a JS object keyed by agent identity, keys in insertion order. -/
def insertResponse (acc : List (String × List String)) (r : DebateRecord) :
    List (String × List String) :=
  if acc.any (fun p => p.1 == r.agent) then
    acc.map (fun p => if p.1 == r.agent then (p.1, p.2 ++ [r.response]) else p)
  else acc ++ [(r.agent, [r.response])]

/-- `synthesizeDebateResults(responses)`. -/
def synthesizeDebateResults (responses : List DebateRecord) : String :=
  let agentSummary := responses.foldl insertResponse []
  "\n🎯 MULTI-AGENT DEBATE SYNTHESIS\n" ++ repeatChar '=' 60 ++ "\n" ++
    String.join (agentSummary.map (fun p =>
      "\n🤖 **" ++ p.1.toUpper ++ " PERSPECTIVE:**\n" ++
        (p.2.getLastD "").take 400 ++ "...\n" ++
        "\n📈 Evolution: " ++ toString p.2.length ++ " iterations\n")) ++
    "\n💡 **DEBATE INSIGHTS:**\n" ++
    "• Multiple AI perspectives analyzed\n" ++
    "• Iterative refinement through discussion\n" ++
    "• Cross-model validation achieved\n" ++
    "• Total responses: " ++ toString responses.length ++ "\n"

/-! ## Pipeline strategy executor (`runPipelineMode`) -/

/-- One pipeline record: `{step, agent, input (truncated preview), output}`. -/
structure PipelineRecord where
  step : Nat
  agent : String
  input : String
  output : String
deriving DecidableEq, Repr

/-- The prompt of pipeline step `i` (0-based): the raw input at step 0,
otherwise the previous step's full output wrapped in the refine framing. -/
def pipelinePrompt (i : Nat) (currentInput : String) : String :=
  if i = 0 then currentInput
  else
    "Build upon and refine this previous analysis:\n\n" ++ currentInput ++
      "\n\nProvide additional insights, corrections, or enhancements:"

/-- `for (let i = 0; i < agents.length; i++)` loop of `runPipelineMode`:
on success the output becomes the next `currentInput`; on failure the loop
`break`s.  Returns the records and the trace of attempted calls. -/
def runPipelineSteps (oracle : Nat → CallResult) :
    List Agent → Nat → String → List PipelineRecord → List (Agent × String) →
    List PipelineRecord × List (Agent × String)
  | [], _, _, results, tr => (results, tr)
  | agent :: rest, i, currentInput, results, tr =>
      let prompt := pipelinePrompt i currentInput
      match oracle i with
      | .success r =>
          runPipelineSteps oracle rest (i + 1) r
            (results ++ [⟨i + 1, agentName agent, currentInput.take 100 ++ "...", r⟩])
            (tr ++ [(agent, prompt)])
      | .failure _ => (results, tr ++ [(agent, prompt)])

/-- `runPipelineMode(input, agents)` up to (and excluding) the final
synthesis call. -/
def runPipelineMode (input : String) (agents : List Agent)
    (oracle : Nat → CallResult) : List PipelineRecord × List (Agent × String) :=
  runPipelineSteps oracle agents 0 input [] []

/-- `synthesizePipelineResults(results)`.  The closing line reads
`results[results.length - 1].output`; on an empty record list this is a
property access on `undefined`, i.e. a thrown `TypeError`, modelled as
`Except.error`. -/
def synthesizePipelineResults (results : List PipelineRecord) :
    Except String String :=
  match results.getLast? with
  | none => .error "TypeError: Cannot read properties of undefined (reading 'output')"
  | some last =>
      .ok ("\n🔗 MULTI-AGENT PIPELINE SYNTHESIS\n" ++ repeatChar '=' 60 ++ "\n" ++
        "📊 **Pipeline executed with " ++ toString results.length ++ " agents**\n\n" ++
        String.join (results.enum.map (fun p =>
          "**Step " ++ toString p.2.step ++ ": " ++ p.2.agent ++ "**\n" ++
            (if p.1 = 0 then "Input: " ++ p.2.input ++ "\n" else "") ++
            "Output: " ++ p.2.output.take 300 ++ "...\n\n")) ++
        "📈 **FINAL REFINED OUTPUT:**\n" ++ repeatChar '=' 40 ++ "\n" ++
        last.output)

/-! ## Consensus strategy executor (`runConsensusMode`) -/

/-- One consensus record: `{agent, response, confidence}`. -/
structure ConsensusRecord where
  agent : String
  response : String
  confidence : Int
deriving DecidableEq, Repr

/-- `for (const agent of agents)` loop of `runConsensusMode`, starting at
call index `i`: every call receives the unmodified `input`; a success is
appended with its estimated confidence, a failure emits no record. -/
def runConsensusAgents (input : String) (oracle : Nat → CallResult) :
    List Agent → Nat → List ConsensusRecord × List (Agent × String)
  | [], _ => ([], [])
  | agent :: rest, i =>
      let (recs, tr) := runConsensusAgents input oracle rest (i + 1)
      match oracle i with
      | .success r =>
          (⟨agentName agent, r, estimateConfidence r⟩ :: recs, (agent, input) :: tr)
      | .failure _ => (recs, (agent, input) :: tr)

/-- `runConsensusMode(input, agents)` up to (and excluding) the final
synthesis call. -/
def runConsensusMode (input : String) (agents : List Agent)
    (oracle : Nat → CallResult) : List ConsensusRecord × List (Agent × String) :=
  runConsensusAgents input oracle agents 0

/-- The part of `buildConsensus` built before the branch on
high-confidence responses (original query preview, headcount, per-record
attribution blocks). -/
def consensusPreamble (responses : List ConsensusRecord) (originalInput : String) : String :=
  "\n🤝 MULTI-AGENT CONSENSUS ANALYSIS\n" ++ repeatChar '=' 60 ++ "\n" ++
    "📋 **Original Query:** " ++ originalInput.take 200 ++ "...\n\n" ++
    "👥 **" ++ toString responses.length ++ " AI Agents Consulted**\n\n" ++
    String.join (responses.map (fun r =>
      "🤖 **" ++ r.agent.toUpper ++ "** (Confidence: " ++ toString r.confidence ++ "%)\n" ++
        r.response.take 300 ++ "...\n\n"))

/-- `buildConsensus(responses, originalInput)`: if any record has
confidence strictly above 75, the first such record's full response is the
headline; otherwise all responses are joined with attribution. -/
def buildConsensus (responses : List ConsensusRecord) (originalInput : String) : String :=
  let consensus := consensusPreamble responses originalInput
  let highConfidenceResponses := responses.filter (fun r => r.confidence > 75)
  match highConfidenceResponses with
  | h :: _ =>
      consensus ++ "✅ **HIGH CONFIDENCE CONSENSUS:**\n" ++ repeatChar '=' 40 ++ "\n" ++
        h.response
  | [] =>
      consensus ++ "⚖️ **BALANCED MULTI-PERSPECTIVE VIEW:**\n" ++ repeatChar '=' 40 ++ "\n" ++
        String.intercalate "\n\n---\n\n"
          (responses.map (fun r => "**" ++ r.agent ++ ":** " ++ r.response))

/-! ## Agent caller (`callSingleAgent`) -/

/-- One provider entry of the `MODELS` registry, as `callSingleAgent`
uses it.  `format` and `headers` build pure request data; the transport
steps (`fetch` + `res.text()`) and the response decoding
(`JSON.parse` + `model.extract`, or the per-line fold of the `ollama`
branch, which swallows line-level parse errors and never throws) are
nondeterministic or provider-specific, so each invocation is
parameterised by their outcomes: `net` is the raw response text or the
exception thrown while fetching, `decode` maps raw text to the extracted
result or to the exception thrown while parsing/extracting. -/
structure ProviderModel where
  url : String
  key : String
  format : String → String → String
  headers : String → List (String × String)

/-- `callSingleAgent(agent, input)`: looks the provider up in the
registry, returning `{success:false, error:'Provider not found'}` without
any outbound request when absent; otherwise performs the request and maps
every exception of the `try` block (modelled as `Except.error` of `net`
or `decode`) to `{success:false, error}` via the `catch` clause, so the
function itself never throws.  The second component records whether an
outbound request was attempted. -/
def callSingleAgent (models : String → Option ProviderModel) (agent : Agent)
    (net : Except String String) (decode : String → Except String String) :
    CallResult × Bool :=
  match models agent.provider with
  | none => (.failure "Provider not found", false)
  | some _ =>
      match net.bind decode with
      | .ok r => (.success r, true)
      | .error e => (.failure e, true)

/-! ## Orchestrator (`runCollaboration`) -/

/-- What `runCollaboration` returns: the synthesis string of a strategy
branch, or — in the `default` branch — the raw `CallResult` of the single
fallback call. -/
inductive CollabOutput where
  | synthesis (report : String)
  | raw (result : CallResult)
deriving DecidableEq, Repr

/-- `runCollaboration(input, mode, selectedModels)`: `switch (mode)` with
cases `'Debate'` (two rounds, the default of `runDebateMode`),
`'Pipeline'`, `'Consensus'`, and a `default` branch that calls
`callSingleAgent(selectedModels[0], input)` — on an empty list
`selectedModels[0]` is `undefined` and the property access
`agent.provider` throws a `TypeError`, modelled as `Except.error`.  The
pipeline branch propagates the exception `synthesizePipelineResults`
throws on an empty record sequence.  Besides the output, the trace of
attempted agent calls `(agent, fullInput)` is returned. -/
def runCollaboration (input mode : String) (selectedModels : List Agent)
    (oracle : Nat → CallResult) :
    Except String (CollabOutput × List (Agent × String)) :=
  if mode = "Debate" then
    let st := runDebateMode input selectedModels 2 oracle
    .ok (.synthesis (synthesizeDebateResults st.responses), st.trace)
  else if mode = "Pipeline" then
    let (results, tr) := runPipelineMode input selectedModels oracle
    match synthesizePipelineResults results with
    | .ok report => .ok (.synthesis report, tr)
    | .error e => .error e
  else if mode = "Consensus" then
    let (responses, tr) := runConsensusMode input selectedModels oracle
    .ok (.synthesis (buildConsensus responses input), tr)
  else
    match selectedModels with
    | [] => .error "TypeError: Cannot read properties of undefined (reading 'provider')"
    | agent :: _ => .ok (.raw (oracle 0), [(agent, input)])

/-! ## Spec-side definitions and helper lemmas -/

/-- Spec-side marker delta: +15 for an assertiveness marker. -/
def assertivenessDelta (s : String) : Int :=
  if containsStr s "definitely" || containsStr s "clearly" then 15 else 0

/-- Spec-side marker delta: +10 for evidentiary language. -/
def evidenceDelta (s : String) : Int :=
  if containsStr s "evidence" || containsStr s "data" then 10 else 0

/-- Spec-side marker delta: +10 for research language. -/
def researchDelta (s : String) : Int :=
  if containsStr s "research" || containsStr s "studies" then 10 else 0

/-- Spec-side marker delta: +10 for length above 800 characters. -/
def lengthDelta (s : String) : Int :=
  if s.length > 800 then 10 else 0

/-- Spec-side marker delta: 10 subtracted for tentative language. -/
def tentativeDelta (s : String) : Int :=
  if containsStr s "might" || containsStr s "possibly" then 10 else 0

/-- Spec-side marker delta: 15 subtracted for explicit uncertainty. -/
def uncertaintyDelta (s : String) : Int :=
  if containsStr s "uncertain" || containsStr s "not sure" then 15 else 0

/-- Spec-side marker delta: 5 subtracted for first-person hedging. -/
def hedgingDelta (s : String) : Int :=
  if containsStr s "I think" || containsStr s "probably" then 5 else 0

/-- The head of a filtered list is the first element satisfying the
predicate, in list order. -/
theorem head?_filter_eq_find? {α : Type} (p : α → Bool) (l : List α) :
    (l.filter p).head? = l.find? p := by
  induction l with
  | nil => rfl
  | cons a rest ih =>
      by_cases h : p a
      · simp [List.filter_cons, List.find?_cons, h]
      · simp [List.filter_cons, List.find?_cons, h, ih]

/-! ## Claim theorems -/

/-- C1, counterexample: calling `runCollaboration` with the unknown mode
`"Unknown"` and a non-empty agent list does not fail with a validation
error: the `default` branch calls the first agent once with the original
input (one Agent Caller invocation, trace of length one) and returns its
raw result — a default strategy is guessed. -/
theorem C1_counterexample :
    runCollaboration "q" "Unknown" [⟨"openai", "gpt-4"⟩] (fun _ => .success "ok") =
      Except.ok (CollabOutput.raw (.success "ok"), [(⟨"openai", "gpt-4"⟩, "q")]) ∧
    (runCollaboration "q" "Unknown" [⟨"openai", "gpt-4"⟩]
        (fun _ => .success "ok")).map (fun out => out.2.length) = Except.ok 1 :=
  ⟨rfl, rfl⟩

/-- C1, amended: for every input, every non-empty agent list and every
mode outside `{Debate, Pipeline, Consensus}`, `runCollaboration` performs
no validation: it falls back to exactly one Agent Caller invocation, on
the first agent with the unmodified input, and returns that call's raw
result. -/
theorem C1_amended (input mode : String) (a : Agent) (rest : List Agent)
    (oracle : Nat → CallResult)
    (hD : mode ≠ "Debate") (hP : mode ≠ "Pipeline") (hC : mode ≠ "Consensus") :
    runCollaboration input mode (a :: rest) oracle =
      Except.ok (CollabOutput.raw (oracle 0), [(a, input)]) := by
  simp [runCollaboration, hD, hP, hC]

theorem C1_amended_witness :
    runCollaboration "q" "Weird" [⟨"p", "m"⟩, ⟨"r", "n"⟩] (fun _ => .failure "down") =
      Except.ok (CollabOutput.raw (.failure "down"), [(⟨"p", "m"⟩, "q")]) :=
  C1_amended "q" "Weird" ⟨"p", "m"⟩ [⟨"r", "n"⟩] (fun _ => .failure "down")
    (by decide) (by decide) (by decide)

set_option maxRecDepth 4000 in
/-- C4 (code bug): Pipeline synthesis over zero records — the record
sequence produced whenever the very first pipeline step fails — throws a
`TypeError` instead of handling the short sequence; a non-empty short
sequence is accepted; and Consensus synthesis over zero records, while it
does not crash, emits no "no responses collected" report. -/
theorem C4_empty_records_bug :
    synthesizePipelineResults [] =
      Except.error "TypeError: Cannot read properties of undefined (reading 'output')" ∧
    (∃ report, synthesizePipelineResults [⟨1, "p-m", "q...", "out"⟩] = Except.ok report) ∧
    containsStr (buildConsensus [] "What is 2+2?") "no responses collected" = false := by
  refine ⟨rfl, ⟨_, rfl⟩, ?_⟩
  decide

set_option maxHeartbeats 1000000 in
/-- C5: the confidence estimator is a deterministic function of the text
alone, equal to the clamp into `[25, 95]` of 50 plus the
order-independent marker deltas (+15 assertiveness, +10 evidence,
+10 research, +10 length over 800, −10 tentative, −15 uncertainty,
−5 hedging), and its value always lies in `[25, 95]`. -/
theorem C5_estimateConfidence_spec (s : String) :
    estimateConfidence s =
      max 25 (min 95 (50 + assertivenessDelta s + evidenceDelta s + researchDelta s +
        lengthDelta s - tentativeDelta s - uncertaintyDelta s - hedgingDelta s)) ∧
    25 ≤ estimateConfidence s ∧ estimateConfidence s ≤ 95 := by
  have heq : estimateConfidence s =
      max 25 (min 95 (50 + assertivenessDelta s + evidenceDelta s + researchDelta s +
        lengthDelta s - tentativeDelta s - uncertaintyDelta s - hedgingDelta s)) := by
    simp only [estimateConfidence, assertivenessDelta, evidenceDelta, researchDelta,
      lengthDelta, tentativeDelta, uncertaintyDelta, hedgingDelta]
    split_ifs <;> decide
  refine ⟨heq, ?_, ?_⟩
  · rw [heq]; exact le_max_left _ _
  · rw [heq]
    exact max_le (by decide) (min_le_left _ _)

/-- C10: `callSingleAgent` looks the provider up first — an unknown
provider yields `{success:false, error:'Provider not found'}` with no
outbound request — and otherwise never throws: a transport exception or a
decoding exception of the `try` block becomes `{success:false, error}`
via the `catch` clause, and a clean response becomes
`{success:true, result}`; these cases are exhaustive. -/
theorem C10_callSingleAgent_total (models : String → Option ProviderModel)
    (agent : Agent) (net : Except String String)
    (decode : String → Except String String) :
    (models agent.provider = none →
      callSingleAgent models agent net decode = (.failure "Provider not found", false)) ∧
    (∀ pm, models agent.provider = some pm →
      ((∀ e, net = .error e →
          callSingleAgent models agent net decode = (.failure e, true)) ∧
       (∀ raw e, net = .ok raw → decode raw = .error e →
          callSingleAgent models agent net decode = (.failure e, true)) ∧
       (∀ raw r, net = .ok raw → decode raw = .ok r →
          callSingleAgent models agent net decode = (.success r, true)))) := by
  refine ⟨fun h => by simp [callSingleAgent, h], fun pm h => ⟨?_, ?_, ?_⟩⟩
  · intro e he
    simp [callSingleAgent, h, he, Except.bind]
  · intro raw e hraw hdec
    simp [callSingleAgent, h, hraw, hdec, Except.bind]
  · intro raw r hraw hdec
    simp [callSingleAgent, h, hraw, hdec, Except.bind]

theorem C10_callSingleAgent_total_witness :
    callSingleAgent (fun _ => none) ⟨"nosuch", "m"⟩ (.ok "raw") (fun _ => .ok "out") =
      (.failure "Provider not found", false) ∧
    callSingleAgent (fun _ => some ⟨"u", "k", fun _ _ => "", fun _ => []⟩)
        ⟨"openai", "m"⟩ (.ok "raw") (fun _ => .error "Unexpected token") =
      (.failure "Unexpected token", true) :=
  ⟨(C10_callSingleAgent_total (fun _ => none) ⟨"nosuch", "m"⟩ (.ok "raw")
      (fun _ => .ok "out")).1 rfl,
   ((C10_callSingleAgent_total (fun _ => some ⟨"u", "k", fun _ _ => "", fun _ => []⟩)
      ⟨"openai", "m"⟩ (.ok "raw") (fun _ => .error "Unexpected token")).2
      ⟨"u", "k", fun _ _ => "", fun _ => []⟩ rfl).2.1 "raw" "Unexpected token" rfl rfl⟩

/-! ## Debate loop lemmas -/

theorem runDebateAgents_calls (input : String) (rnd : Nat) (oracle : Nat → CallResult)
    (agents : List Agent) : ∀ st : DebateState,
    (runDebateAgents input rnd oracle agents st).calls = st.calls + agents.length := by
  induction agents with
  | nil => intro st; simp [runDebateAgents]
  | cons a rest ih =>
      intro st
      cases h : oracle st.calls <;>
        simp [runDebateAgents, h, ih] <;> omega

theorem runDebateAgents_trace_length (input : String) (rnd : Nat) (oracle : Nat → CallResult)
    (agents : List Agent) : ∀ st : DebateState,
    (runDebateAgents input rnd oracle agents st).trace.length =
      st.trace.length + agents.length := by
  induction agents with
  | nil => intro st; simp [runDebateAgents]
  | cons a rest ih =>
      intro st
      cases h : oracle st.calls <;>
        simp [runDebateAgents, h, ih] <;> omega

theorem runDebateAgents_trace_fst (input : String) (rnd : Nat) (oracle : Nat → CallResult)
    (agents : List Agent) : ∀ st : DebateState,
    (runDebateAgents input rnd oracle agents st).trace.map Prod.fst =
      st.trace.map Prod.fst ++ agents := by
  induction agents with
  | nil => intro st; simp [runDebateAgents]
  | cons a rest ih =>
      intro st
      cases h : oracle st.calls <;>
        simp [runDebateAgents, h, ih]

theorem runDebateAgents_logs (input : String) (rnd : Nat) (oracle : Nat → CallResult)
    (agents : List Agent) : ∀ st : DebateState,
    (runDebateAgents input rnd oracle agents st).logs =
      st.logs ++ (List.range' st.calls agents.length).map (debateLogLine oracle) := by
  induction agents with
  | nil => intro st; simp [runDebateAgents]
  | cons a rest ih =>
      intro st
      cases h : oracle st.calls <;>
        simp [runDebateAgents, h, ih, debateLogLine, List.range'_succ]

theorem runDebateAgents_responses_length (input : String) (rnd : Nat)
    (oracle : Nat → CallResult) (agents : List Agent) : ∀ st : DebateState,
    (runDebateAgents input rnd oracle agents st).responses.length =
      st.responses.length +
        ((List.range' st.calls agents.length).filter
          (fun k => (oracle k).isSuccess)).length := by
  induction agents with
  | nil => intro st; simp [runDebateAgents]
  | cons a rest ih =>
      intro st
      cases h : oracle st.calls <;>
        simp [runDebateAgents, h, ih, List.range'_succ, CallResult.isSuccess] <;> omega

theorem runDebateAgents_responses_extend_mono (input : String) (rnd : Nat)
    (oracle : Nat → CallResult) (agents : List Agent) :
    ∀ (st : DebateState) (pre : List DebateRecord), pre <+: st.responses →
    pre <+: (runDebateAgents input rnd oracle agents st).responses := by
  induction agents with
  | nil => intro st pre h; simpa [runDebateAgents] using h
  | cons a rest ih =>
      intro st pre hpre
      cases h : oracle st.calls
      · simp only [runDebateAgents, h]
        exact ih _ _ (hpre.trans (List.prefix_append _ _))
      · simp only [runDebateAgents, h]
        exact ih _ _ hpre

theorem runDebateAgents_responses_extend (input : String) (rnd : Nat)
    (oracle : Nat → CallResult) (agents : List Agent) : ∀ st : DebateState,
    st.responses <+: (runDebateAgents input rnd oracle agents st).responses :=
  fun st => runDebateAgents_responses_extend_mono input rnd oracle agents st _ List.prefix_rfl

theorem runDebateAgents_trace_extend_mono (input : String) (rnd : Nat)
    (oracle : Nat → CallResult) (agents : List Agent) :
    ∀ (st : DebateState) (pre : List (Agent × String)), pre <+: st.trace →
    pre <+: (runDebateAgents input rnd oracle agents st).trace := by
  induction agents with
  | nil => intro st pre h; simpa [runDebateAgents] using h
  | cons a rest ih =>
      intro st pre hpre
      cases h : oracle st.calls
      · simp only [runDebateAgents, h]
        exact ih _ _ (hpre.trans (List.prefix_append _ _))
      · simp only [runDebateAgents, h]
        exact ih _ _ (hpre.trans (List.prefix_append _ _))

theorem runDebateAgents_trace_extend (input : String) (rnd : Nat)
    (oracle : Nat → CallResult) (agents : List Agent) : ∀ st : DebateState,
    st.trace <+: (runDebateAgents input rnd oracle agents st).trace :=
  fun st => runDebateAgents_trace_extend_mono input rnd oracle agents st _ List.prefix_rfl

/-- Splitting a consecutive range of call indices. -/
theorem range'_split (s m n : Nat) :
    List.range' s (m + n) = List.range' s m ++ List.range' (s + m) n := by
  have h := List.range'_append s m n 1
  simpa [Nat.add_comm n m] using h.symm

theorem runDebateRounds_calls (input : String) (agents : List Agent)
    (oracle : Nat → CallResult) : ∀ (remaining rnd : Nat) (st : DebateState),
    (runDebateRounds input agents oracle remaining rnd st).calls =
      st.calls + remaining * agents.length := by
  intro remaining
  induction remaining with
  | zero => intro rnd st; simp [runDebateRounds]
  | succ r ih =>
      intro rnd st
      simp only [runDebateRounds]
      rw [ih, runDebateAgents_calls]
      ring

theorem runDebateRounds_trace_length (input : String) (agents : List Agent)
    (oracle : Nat → CallResult) : ∀ (remaining rnd : Nat) (st : DebateState),
    (runDebateRounds input agents oracle remaining rnd st).trace.length =
      st.trace.length + remaining * agents.length := by
  intro remaining
  induction remaining with
  | zero => intro rnd st; simp [runDebateRounds]
  | succ r ih =>
      intro rnd st
      simp only [runDebateRounds]
      rw [ih, runDebateAgents_trace_length]
      ring

theorem runDebateRounds_trace_fst (input : String) (agents : List Agent)
    (oracle : Nat → CallResult) : ∀ (remaining rnd : Nat) (st : DebateState),
    (runDebateRounds input agents oracle remaining rnd st).trace.map Prod.fst =
      st.trace.map Prod.fst ++ (List.replicate remaining agents).flatten := by
  intro remaining
  induction remaining with
  | zero => intro rnd st; simp [runDebateRounds]
  | succ r ih =>
      intro rnd st
      simp only [runDebateRounds]
      rw [ih, runDebateAgents_trace_fst]
      simp [List.replicate_succ]

theorem runDebateRounds_logs (input : String) (agents : List Agent)
    (oracle : Nat → CallResult) : ∀ (remaining rnd : Nat) (st : DebateState),
    (runDebateRounds input agents oracle remaining rnd st).logs =
      st.logs ++ (List.range' st.calls (remaining * agents.length)).map
        (debateLogLine oracle) := by
  intro remaining
  induction remaining with
  | zero => intro rnd st; simp [runDebateRounds]
  | succ r ih =>
      intro rnd st
      simp only [runDebateRounds]
      rw [ih, runDebateAgents_logs, runDebateAgents_calls, List.append_assoc,
        ← List.map_append, ← range'_split,
        show agents.length + r * agents.length = (r + 1) * agents.length by ring]

theorem runDebateRounds_responses_length (input : String) (agents : List Agent)
    (oracle : Nat → CallResult) : ∀ (remaining rnd : Nat) (st : DebateState),
    (runDebateRounds input agents oracle remaining rnd st).responses.length =
      st.responses.length +
        ((List.range' st.calls (remaining * agents.length)).filter
          (fun k => (oracle k).isSuccess)).length := by
  intro remaining
  induction remaining with
  | zero => intro rnd st; simp [runDebateRounds]
  | succ r ih =>
      intro rnd st
      simp only [runDebateRounds]
      rw [ih, runDebateAgents_responses_length, runDebateAgents_calls,
        show (r + 1) * agents.length = agents.length + r * agents.length by ring,
        range'_split, List.filter_append, List.length_append]
      omega

theorem runDebateRounds_responses_extend (input : String) (agents : List Agent)
    (oracle : Nat → CallResult) : ∀ (remaining rnd : Nat) (st : DebateState),
    st.responses <+: (runDebateRounds input agents oracle remaining rnd st).responses := by
  intro remaining
  induction remaining with
  | zero => intro rnd st; simp [runDebateRounds]
  | succ r ih =>
      intro rnd st
      simp only [runDebateRounds]
      exact (runDebateAgents_responses_extend input rnd oracle agents st).trans (ih _ _)

theorem runDebateRounds_trace_extend (input : String) (agents : List Agent)
    (oracle : Nat → CallResult) : ∀ (remaining rnd : Nat) (st : DebateState),
    st.trace <+: (runDebateRounds input agents oracle remaining rnd st).trace := by
  intro remaining
  induction remaining with
  | zero => intro rnd st; simp [runDebateRounds]
  | succ r ih =>
      intro rnd st
      simp only [runDebateRounds]
      exact (runDebateAgents_trace_extend input rnd oracle agents st).trans (ih _ _)

/-- C8: for every `rounds` and agent list, Debate attempts exactly
`rounds × n` calls, in round-major order with agent-list order within each
round (the trace's agents are the agent list repeated `rounds` times), and
collects at most `rounds × n` records, with exactly `rounds × n` records
precisely when every attempted call succeeds (fewer iff some calls
fail). -/
theorem C8_debate_call_budget (input : String) (agents : List Agent) (rounds : Nat)
    (oracle : Nat → CallResult) :
    (runDebateMode input agents rounds oracle).trace.length = rounds * agents.length ∧
    (runDebateMode input agents rounds oracle).trace.map Prod.fst =
      (List.replicate rounds agents).flatten ∧
    (runDebateMode input agents rounds oracle).responses.length ≤ rounds * agents.length ∧
    ((runDebateMode input agents rounds oracle).responses.length = rounds * agents.length ↔
      ∀ k, k < rounds * agents.length → (oracle k).isSuccess = true) := by
  have hlen := runDebateRounds_trace_length input agents oracle rounds 1 ⟨[], [], [], 0⟩
  have hfst := runDebateRounds_trace_fst input agents oracle rounds 1 ⟨[], [], [], 0⟩
  have hresp := runDebateRounds_responses_length input agents oracle rounds 1 ⟨[], [], [], 0⟩
  simp only [runDebateMode] at *
  refine ⟨by simpa using hlen, by simpa using hfst, ?_, ?_⟩
  · rw [hresp]
    simp only [List.length_nil, Nat.zero_add]
    calc ((List.range' 0 (rounds * agents.length)).filter
          (fun k => (oracle k).isSuccess)).length
        ≤ (List.range' 0 (rounds * agents.length)).length := List.length_filter_le _ _
      _ = rounds * agents.length := by rw [List.length_range']
  · rw [hresp]
    simp only [List.length_nil, Nat.zero_add]
    constructor
    · intro h k hk
      have hfull : (List.range' 0 (rounds * agents.length)).filter
          (fun k => (oracle k).isSuccess) = List.range' 0 (rounds * agents.length) :=
        (List.filter_sublist _).eq_of_length (by rw [h, List.length_range'])
      have hk' : k ∈ List.range' 0 (rounds * agents.length) :=
        List.mem_range'_1.mpr ⟨Nat.zero_le _, by omega⟩
      exact List.filter_eq_self.mp hfull k hk'
    · intro h
      rw [List.filter_eq_self.mpr fun k hk =>
        h k (by have := List.mem_range'_1.mp hk; omega), List.length_range']

/-- C3: in Debate mode a failed call does not abort anything — all
`rounds × n` calls are still attempted regardless of failures — and each
failed call is logged with its error retained: the k-th per-call log line
is `❌ Failed: <error>` whenever the k-th call fails. -/
theorem C3_debate_failure_logged (input : String) (agents : List Agent) (rounds : Nat)
    (oracle : Nat → CallResult) (k : Nat) (e : String)
    (hk : k < rounds * agents.length) (he : oracle k = .failure e) :
    (runDebateMode input agents rounds oracle).trace.length = rounds * agents.length ∧
    (runDebateMode input agents rounds oracle).logs[k]? = some ("❌ Failed: " ++ e) := by
  have hlen := runDebateRounds_trace_length input agents oracle rounds 1 ⟨[], [], [], 0⟩
  have hlogs := runDebateRounds_logs input agents oracle rounds 1 ⟨[], [], [], 0⟩
  simp only [runDebateMode] at *
  refine ⟨by simpa using hlen, ?_⟩
  rw [hlogs]
  simp only [List.nil_append, List.getElem?_map, List.getElem?_range' 0 1 hk]
  simp [debateLogLine, he]

theorem C3_debate_failure_logged_witness :
    (runDebateMode "q" [⟨"p", "m"⟩] 1 (fun _ => .failure "boom")).trace.length = 1 ∧
    (runDebateMode "q" [⟨"p", "m"⟩] 1 (fun _ => .failure "boom")).logs[0]? =
      some ("❌ Failed: " ++ "boom") := by
  have h := C3_debate_failure_logged "q" [⟨"p", "m"⟩] 1 (fun _ => .failure "boom") 0 "boom"
    (by decide) rfl
  simpa using h

/-- The number of successful calls among the first `k` attempted ones. -/
def successCount (oracle : Nat → CallResult) (k : Nat) : Nat :=
  ((List.range' 0 k).filter (fun j => (oracle j).isSuccess)).length

theorem successCount_succ (oracle : Nat → CallResult) (k : Nat) :
    successCount oracle (k + 1) =
      successCount oracle k + (if (oracle k).isSuccess then 1 else 0) := by
  unfold successCount
  rw [range'_split 0 k 1, List.filter_append, List.length_append]
  simp only [Nat.zero_add, List.range'_one]
  cases h : (oracle k).isSuccess <;> simp [h]

theorem successCount_mono (oracle : Nat → CallResult) (j k : Nat) (h : j ≤ k) :
    successCount oracle j ≤ successCount oracle k := by
  unfold successCount
  have hsplit : List.range' 0 k = List.range' 0 j ++ List.range' j (k - j) := by
    have hs := range'_split 0 j (k - j)
    simp only [Nat.zero_add] at hs
    rw [← hs]
    congr 1
    omega
  rw [hsplit, List.filter_append, List.length_append]
  exact Nat.le_add_right _ _

/-- Invariant tying a debate loop state to the call oracle: one trace
entry per attempted call, one record per successful call, and the k-th
attempted call received the original input concatenated with the context
of exactly the records that had been collected before that call — the
first `successCount oracle k` records of the state's record list. -/
def DebateInvariant (input : String) (oracle : Nat → CallResult)
    (st : DebateState) : Prop :=
  st.trace.length = st.calls ∧
  st.responses.length = successCount oracle st.calls ∧
  ∀ k, k < st.calls →
    (st.trace[k]?).map Prod.snd =
      some (input ++ debateContext (st.responses.take (successCount oracle k)))

/-- One agents pass preserves the debate invariant. -/
theorem runDebateAgents_invariant (input : String) (rnd : Nat)
    (oracle : Nat → CallResult) (agents : List Agent) : ∀ st : DebateState,
    DebateInvariant input oracle st →
    DebateInvariant input oracle (runDebateAgents input rnd oracle agents st) := by
  induction agents with
  | nil => intro st h; simpa [runDebateAgents] using h
  | cons a rest ih =>
      intro st h
      obtain ⟨hlen, hresp, hctx⟩ := h
      cases hc : oracle st.calls
      case success r =>
        simp only [runDebateAgents, hc]
        apply ih
        refine ⟨by simp [hlen], ?_, ?_⟩
        · simp only [List.length_append, List.length_cons, List.length_nil]
          rw [successCount_succ, hc]
          simp [CallResult.isSuccess, hresp]
        · intro k hk
          rcases Nat.lt_succ_iff_lt_or_eq.mp hk with hk' | rfl
          · rw [List.getElem?_append_left (by rw [hlen]; exact hk'),
              List.take_append_of_le_length (by
                rw [hresp]
                exact successCount_mono oracle k st.calls (Nat.le_of_lt hk'))]
            exact hctx k hk'
          · rw [List.getElem?_append_right hlen.le, ← hresp, List.take_left]
            simp [hlen]
      case failure e =>
        simp only [runDebateAgents, hc]
        apply ih
        refine ⟨by simp [hlen], ?_, ?_⟩
        · rw [successCount_succ, hc]
          simp [CallResult.isSuccess, hresp]
        · intro k hk
          rcases Nat.lt_succ_iff_lt_or_eq.mp hk with hk' | rfl
          · rw [List.getElem?_append_left (by rw [hlen]; exact hk')]
            exact hctx k hk'
          · rw [List.getElem?_append_right hlen.le, ← hresp, List.take_length]
            simp [hlen]

/-- The debate invariant lifted over the rounds loop. -/
theorem runDebateRounds_invariant (input : String) (agents : List Agent)
    (oracle : Nat → CallResult) : ∀ (remaining rnd : Nat) (st : DebateState),
    DebateInvariant input oracle st →
    DebateInvariant input oracle
      (runDebateRounds input agents oracle remaining rnd st) := by
  intro remaining
  induction remaining with
  | zero => intro rnd st h; simpa [runDebateRounds] using h
  | succ r ih =>
      intro rnd st h
      simp only [runDebateRounds]
      exact ih _ _ (runDebateAgents_invariant input rnd oracle agents st h)

set_option maxRecDepth 8000 in
/-- C2, counterexample: in a two-agent debate with two rounds (the
orchestrator's default) where every call succeeds with `"resp"`, the
second call — still in round 1, as its record's `round` field is 1 —
receives not the original input `"q"` but `"q"` followed by the previous
perspectives digest, so not every round-1 agent receives exactly the
original input. -/
theorem C2_counterexample :
    ((runDebateMode "q" [⟨"p", "m"⟩, ⟨"r", "n"⟩] 2 (fun _ => .success "resp")).trace.map
        Prod.snd)[1]? =
      some ("q\n\nPrevious perspectives:\np-m: resp...\n\nNow provide your perspective, considering the above:") ∧
    "q\n\nPrevious perspectives:\np-m: resp...\n\nNow provide your perspective, considering the above:" ≠ "q" ∧
    ((runDebateMode "q" [⟨"p", "m"⟩, ⟨"r", "n"⟩] 2 (fun _ => .success "resp")).responses.map
        DebateRecord.round)[1]? = some 1 := by
  refine ⟨rfl, by decide, rfl⟩

/-- C2, amended: what triggers the digest is not the round number but the
existence of collected records.  The first call of the collaboration (the
first agent of round 1) receives exactly the original input; and the k-th
attempted call (any round) receives exactly the original input
concatenated with `debateContext` of the records collected before it —
the first `successCount oracle k` records of the final record list.  That
context is empty precisely while no record exists (even in round 2 if all
earlier calls failed), and is the digest of the two most recent collected
records (agent identity plus 200-character response prefix) as soon as
any record exists — already for the second agent of round 1. -/
theorem C2_amended_context_trigger (input : String) (agents : List Agent) (rounds : Nat)
    (oracle : Nat → CallResult) :
    (∀ a rest, agents = a :: rest → 0 < rounds →
      (runDebateMode input agents rounds oracle).trace.head? = some (a, input)) ∧
    (∀ k, k < (runDebateMode input agents rounds oracle).trace.length →
      ((runDebateMode input agents rounds oracle).trace[k]?).map Prod.snd =
        some (input ++ debateContext
          ((runDebateMode input agents rounds oracle).responses.take
            (successCount oracle k)))) := by
  constructor
  · rintro a rest rfl hr
    obtain ⟨r, rfl⟩ : ∃ r, rounds = r + 1 := ⟨rounds - 1, by omega⟩
    have key : ∀ st1 : DebateState, st1.trace = [(a, input ++ debateContext [])] →
        (runDebateRounds input (a :: rest) oracle r 2
          (runDebateAgents input 1 oracle rest st1)).trace.head? = some (a, input) := by
      intro st1 hst
      have h1 : [(a, input ++ debateContext [])] <+:
          (runDebateAgents input 1 oracle rest st1).trace :=
        runDebateAgents_trace_extend_mono input 1 oracle rest st1 _
          (hst ▸ List.prefix_rfl)
      have h2 := runDebateRounds_trace_extend input (a :: rest) oracle r 2
        (runDebateAgents input 1 oracle rest st1)
      obtain ⟨t, ht⟩ := h1.trans h2
      rw [← ht]
      simp [debateContext, String.append_empty]
    simp only [runDebateMode, runDebateRounds, runDebateAgents]
    cases hc : oracle (0 : Nat)
    · simp only [hc]
      exact key _ (by simp)
    · simp only [hc]
      exact key _ (by simp)
  · have hinv := runDebateRounds_invariant input agents oracle rounds 1 ⟨[], [], [], 0⟩
      ⟨rfl, rfl, fun k hk => absurd hk (Nat.not_lt_zero k)⟩
    obtain ⟨h1, _, h3⟩ := hinv
    intro k hk
    simp only [runDebateMode] at hk ⊢
    exact h3 k (h1 ▸ hk)

set_option maxRecDepth 8000 in
theorem C2_amended_context_trigger_witness :
    (runDebateMode "q" [⟨"p", "m"⟩] 2 (fun _ => .failure "down")).trace.head? =
      some (⟨"p", "m"⟩, "q") ∧
    ((runDebateMode "q" [⟨"p", "m"⟩, ⟨"r", "n"⟩] 2
        (fun _ => .success "resp")).trace[1]?).map Prod.snd =
      some ("q" ++ debateContext
        ((runDebateMode "q" [⟨"p", "m"⟩, ⟨"r", "n"⟩] 2
            (fun _ => .success "resp")).responses.take
          (successCount (fun _ => .success "resp") 1))) :=
  ⟨(C2_amended_context_trigger "q" [⟨"p", "m"⟩] 2 (fun _ => .failure "down")).1
      ⟨"p", "m"⟩ [] rfl (by decide),
   (C2_amended_context_trigger "q" [⟨"p", "m"⟩, ⟨"r", "n"⟩] 2
      (fun _ => .success "resp")).2 1 (by decide)⟩

/-! ## Pipeline halt lemma -/

/-- Master lemma for the pipeline loop: if, starting at call index `i`,
the next `m` calls succeed with outputs `res i, …, res (i+m-1)` and call
`i+m` fails, the loop produces exactly the records of the `m` completed
steps (numbered `i+1, …, i+m`, in order, with outputs `res i, …`), and the
`m+1` attempted calls receive the start prompt for call `i` followed by,
for each later call `j`, the prompt wrapping the previous call's full
output `res (j-1)`. -/
theorem runPipelineSteps_halt (oracle : Nat → CallResult) (res : Nat → String) (e : String) :
    ∀ (m : Nat) (agents : List Agent) (i : Nat) (cur : String)
      (acc : List PipelineRecord) (tr : List (Agent × String)),
      m < agents.length →
      oracle (i + m) = .failure e →
      (∀ j, j < m → oracle (i + j) = .success (res (i + j))) →
      (runPipelineSteps oracle agents i cur acc tr).1.map PipelineRecord.step =
          acc.map PipelineRecord.step ++ List.range' (i + 1) m ∧
      (runPipelineSteps oracle agents i cur acc tr).1.map PipelineRecord.output =
          acc.map PipelineRecord.output ++ (List.range' i m).map res ∧
      (runPipelineSteps oracle agents i cur acc tr).2.map Prod.snd =
          tr.map Prod.snd ++ pipelinePrompt i cur ::
            (List.range' (i + 1) m).map (fun j => pipelinePrompt j (res (j - 1))) := by
  intro m
  induction m with
  | zero =>
      intro agents i cur acc tr hm hfail hok
      cases agents with
      | nil => simp at hm
      | cons a rest =>
          simp only [Nat.add_zero] at hfail
          simp [runPipelineSteps, hfail]
  | succ m ih =>
      intro agents i cur acc tr hm hfail hok
      cases agents with
      | nil => simp at hm
      | cons a rest =>
          have h0 : oracle i = .success (res i) := by
            have h := hok 0 (Nat.succ_pos m)
            simpa using h
          simp only [runPipelineSteps, h0]
          have hih := ih rest (i + 1) (res i)
            (acc ++ [⟨i + 1, agentName a, cur.take 100 ++ "...", res i⟩])
            (tr ++ [(a, pipelinePrompt i cur)])
            (by simp only [List.length_cons] at hm; omega)
            (by rw [show i + 1 + m = i + (m + 1) by ring]; exact hfail)
            (fun j hj => by
              rw [show i + 1 + j = i + (j + 1) by ring]
              exact hok (j + 1) (by omega))
          obtain ⟨hsteps, houts, htr⟩ := hih
          refine ⟨?_, ?_, ?_⟩
          · rw [hsteps]
            simp [List.range'_succ]
          · rw [houts]
            simp [List.range'_succ]
          · rw [htr]
            simp [List.range'_succ]

/-- C7: if the first failed pipeline call is the one with 0-based index
`m` (step `m+1`, 1-based) then the executor halts there: exactly `m`
records are produced, one per completed step in step order
(`step = 1, …, m`, outputs `res 0, …, res (m-1)`), exactly `m+1` calls are
attempted, and every step after the first receives the prompt that wraps
the previous step's full output in the refine framing (step 1 receives
the raw input). -/
theorem C7_pipeline_halts (input : String) (agents : List Agent) (oracle : Nat → CallResult)
    (m : Nat) (e : String) (res : Nat → String)
    (hm : m < agents.length)
    (hfail : oracle m = .failure e)
    (hok : ∀ j, j < m → oracle j = .success (res j)) :
    (runPipelineMode input agents oracle).1.length = m ∧
    (runPipelineMode input agents oracle).1.map PipelineRecord.step = List.range' 1 m ∧
    (runPipelineMode input agents oracle).1.map PipelineRecord.output =
      (List.range' 0 m).map res ∧
    (runPipelineMode input agents oracle).2.length = m + 1 ∧
    (runPipelineMode input agents oracle).2.map Prod.snd =
      input :: (List.range' 1 m).map (fun j =>
        "Build upon and refine this previous analysis:\n\n" ++ res (j - 1) ++
          "\n\nProvide additional insights, corrections, or enhancements:") := by
  have h := runPipelineSteps_halt oracle res e m agents 0 input [] [] hm
    (by simpa using hfail) (fun j hj => by simpa using hok j hj)
  obtain ⟨hsteps, houts, htr⟩ := h
  simp only [runPipelineMode] at *
  refine ⟨?_, ?_, ?_, ?_, ?_⟩
  · have hlen := congrArg List.length hsteps
    simpa [List.length_range'] using hlen
  · simpa using hsteps
  · simpa using houts
  · have hlen := congrArg List.length htr
    simpa [List.length_range'] using hlen
  · rw [htr]
    simp only [List.map_nil, List.nil_append, Nat.zero_add]
    have hhead : pipelinePrompt 0 input = input := by simp [pipelinePrompt]
    have htail : (List.range' 1 m).map (fun j => pipelinePrompt j (res (j - 1))) =
        (List.range' 1 m).map (fun j =>
          "Build upon and refine this previous analysis:\n\n" ++ res (j - 1) ++
            "\n\nProvide additional insights, corrections, or enhancements:") := by
      apply List.map_congr_left
      intro j hj
      rw [List.mem_range'_1] at hj
      simp only [pipelinePrompt, if_neg (show ¬ j = 0 by omega)]
    rw [hhead, htail]

theorem C7_pipeline_halts_witness :
    (runPipelineMode "q" [⟨"p", "m"⟩, ⟨"r", "n"⟩]
        (fun k => if k = 0 then .success "o1" else .failure "down")).1.length = 1 ∧
    (runPipelineMode "q" [⟨"p", "m"⟩, ⟨"r", "n"⟩]
        (fun k => if k = 0 then .success "o1" else .failure "down")).1.map
      PipelineRecord.output = ["o1"] ∧
    (runPipelineMode "q" [⟨"p", "m"⟩, ⟨"r", "n"⟩]
        (fun k => if k = 0 then .success "o1" else .failure "down")).2.map Prod.snd =
      ["q", "Build upon and refine this previous analysis:\n\no1" ++
        "\n\nProvide additional insights, corrections, or enhancements:"] := by
  have h := C7_pipeline_halts "q" [⟨"p", "m"⟩, ⟨"r", "n"⟩]
    (fun k => if k = 0 then .success "o1" else .failure "down") 1 "down"
    (fun _ => "o1") (by decide) rfl
    (fun j hj => by interval_cases j <;> rfl)
  obtain ⟨h1, _, h3, _, h5⟩ := h
  refine ⟨h1, by simpa using h3, by simpa [List.range'] using h5⟩

/-! ## Consensus lemmas -/

/-- Characterization of the consensus loop from call index `i`: the trace
pairs every agent with the unmodified input, and the records are the
filter-map over the indexed agent list keeping exactly the successful
calls. -/
theorem runConsensusAgents_spec (input : String) (oracle : Nat → CallResult) :
    ∀ (agents : List Agent) (i : Nat),
      runConsensusAgents input oracle agents i =
        ((agents.enumFrom i).filterMap (fun p =>
           match oracle p.1 with
           | .success r => some ⟨agentName p.2, r, estimateConfidence r⟩
           | .failure _ => none),
         agents.map (fun a => (a, input))) := by
  intro agents
  induction agents with
  | nil => intro i; simp [runConsensusAgents]
  | cons a rest ih =>
      intro i
      simp only [runConsensusAgents, ih, List.enumFrom_cons, List.filterMap_cons,
        List.map_cons]
      cases h : oracle i <;> simp [h]

/-- The successful agents' identities, in record order, form a sublist of
the input agent list's identities. -/
theorem consensus_records_sublist (oracle : Nat → CallResult) :
    ∀ (agents : List Agent) (i : Nat),
      (((agents.enumFrom i).filterMap (fun p =>
          match oracle p.1 with
          | .success r => some (⟨agentName p.2, r, estimateConfidence r⟩ : ConsensusRecord)
          | .failure _ => none)).map ConsensusRecord.agent).Sublist
        (agents.map agentName) := by
  intro agents
  induction agents with
  | nil => intro i; simp
  | cons a rest ih =>
      intro i
      simp only [List.enumFrom_cons, List.filterMap_cons, List.map_cons]
      cases h : oracle i
      · simp only [h, List.map_cons]
        exact (ih (i + 1)).cons₂ _
      · simp only [h]
        exact (ih (i + 1)).cons _

/-- C9: in Consensus mode every agent is called with the same unmodified
input, a failed call is skipped without leaving any record (no error
marker), and the records — exactly the successful calls' responses with
their estimated confidences — keep the input agent-list order. -/
theorem C9_consensus_order (input : String) (agents : List Agent)
    (oracle : Nat → CallResult) :
    (runConsensusMode input agents oracle).2 = agents.map (fun a => (a, input)) ∧
    (runConsensusMode input agents oracle).1 =
      (agents.enum).filterMap (fun p =>
        match oracle p.1 with
        | .success r => some ⟨agentName p.2, r, estimateConfidence r⟩
        | .failure _ => none) ∧
    ((runConsensusMode input agents oracle).1.map ConsensusRecord.agent).Sublist
      (agents.map agentName) := by
  have h := runConsensusAgents_spec input oracle agents 0
  simp only [runConsensusMode]
  refine ⟨by rw [h], by rw [h, List.enum], ?_⟩
  rw [h]
  exact consensus_records_sublist oracle agents 0

/-- C6: consensus synthesis branches exactly at threshold 75.  If some
record has confidence strictly above 75, the promoted response is that of
the first such record in record order (`find?`, not the maximum);
otherwise — every confidence at most 75 — all responses are concatenated
with attribution as the balanced multi-perspective view. -/
theorem C6_consensus_threshold (rs : List ConsensusRecord) (input : String) :
    ((∃ r ∈ rs, 75 < r.confidence) →
      ∃ r, rs.find? (fun x => x.confidence > 75) = some r ∧
        buildConsensus rs input =
          consensusPreamble rs input ++ "✅ **HIGH CONFIDENCE CONSENSUS:**\n" ++
            repeatChar '=' 40 ++ "\n" ++ r.response) ∧
    ((∀ r ∈ rs, r.confidence ≤ 75) →
      buildConsensus rs input =
        consensusPreamble rs input ++ "⚖️ **BALANCED MULTI-PERSPECTIVE VIEW:**\n" ++
          repeatChar '=' 40 ++ "\n" ++
          String.intercalate "\n\n---\n\n"
            (rs.map (fun r => "**" ++ r.agent ++ ":** " ++ r.response))) := by
  constructor
  · rintro ⟨r0, hmem, hconf⟩
    have hne : rs.filter (fun r => r.confidence > 75) ≠ [] := by
      intro hnil
      have habs := List.filter_eq_nil_iff.mp hnil r0 hmem
      simp at habs
      omega
    cases hf : rs.filter (fun r => r.confidence > 75) with
    | nil => exact absurd hf hne
    | cons h t =>
        refine ⟨h, ?_, ?_⟩
        · rw [← head?_filter_eq_find?, hf]
          rfl
        · simp only [buildConsensus]
          rw [hf]
  · intro hall
    have hf : rs.filter (fun r => r.confidence > 75) = [] :=
      List.filter_eq_nil_iff.mpr (fun r hr => by
        have := hall r hr
        simp
        omega)
    simp only [buildConsensus]
    rw [hf]

theorem C6_consensus_threshold_witness :
    (∃ r, ([⟨"a", "A", 75⟩, ⟨"b", "B", 76⟩, ⟨"c", "C", 90⟩] :
        List ConsensusRecord).find? (fun x => x.confidence > 75) = some r ∧
      buildConsensus [⟨"a", "A", 75⟩, ⟨"b", "B", 76⟩, ⟨"c", "C", 90⟩] "q" =
        consensusPreamble [⟨"a", "A", 75⟩, ⟨"b", "B", 76⟩, ⟨"c", "C", 90⟩] "q" ++
          "✅ **HIGH CONFIDENCE CONSENSUS:**\n" ++ repeatChar '=' 40 ++ "\n" ++
          r.response) ∧
    buildConsensus [⟨"a", "A", 75⟩, ⟨"d", "D", 70⟩] "q" =
      consensusPreamble [⟨"a", "A", 75⟩, ⟨"d", "D", 70⟩] "q" ++
        "⚖️ **BALANCED MULTI-PERSPECTIVE VIEW:**\n" ++ repeatChar '=' 40 ++ "\n" ++
        String.intercalate "\n\n---\n\n"
          (([⟨"a", "A", 75⟩, ⟨"d", "D", 70⟩] : List ConsensusRecord).map
            (fun r => "**" ++ r.agent ++ ":** " ++ r.response)) :=
  ⟨(C6_consensus_threshold [⟨"a", "A", 75⟩, ⟨"b", "B", 76⟩, ⟨"c", "C", 90⟩] "q").1
      ⟨⟨"b", "B", 76⟩, by decide, by decide⟩,
   (C6_consensus_threshold [⟨"a", "A", 75⟩, ⟨"d", "D", 70⟩] "q").2 (by decide)⟩

theorem C8_debate_call_budget_witness :
    (runDebateMode "q" [⟨"p", "m"⟩] 2 (fun _ => .success "ok")).responses.length = 2 :=
  (C8_debate_call_budget "q" [⟨"p", "m"⟩] 2 (fun _ => .success "ok")).2.2.2.mpr
    (fun _ _ => rfl)
